import Mathlib

/-!
Shallow embedding of `xdg-desktop-file-override` (src/src/main.rs).

File contents are modelled as lists of bytes (`List Nat`, each < 256 in
practice); Rust `str::find` / `str::contains` / `String::insert_str` are
modelled byte-exactly, including the char-boundary panic of `insert_str`.
External collaborators (the regex engine, child processes, YAML parsing)
are modelled as oracle parameters, as the spec directs: the core consumes
a parsed configuration object, a regex compiler, and a process runner.
The process runner's stdout is taken after `String::from_utf8_lossy`
decoding (the code compares only the decoded text).
-/

namespace XdgOverride

/-- Byte list of an ASCII string literal (all literals used here are ASCII,
where the Unicode code point equals the UTF-8 byte). -/
def strBytes (s : String) : List Nat := s.toList.map Char.toNat

/-- The marker key `X-XDG-Desktop-File-Override-Version` (main.rs line 205). -/
def overrideProperty : List Nat := strBytes "X-XDG-Desktop-File-Override-Version"

/-- The literal section header `[Desktop Entry]` (main.rs line 209). -/
def desktopEntryHeader : List Nat := strBytes "[Desktop Entry]"

/-- Rust `str::contains` on byte lists: does `pat` occur as a contiguous
substring? -/
def containsSub (pat : List Nat) : List Nat → Bool
  | [] => pat.isEmpty
  | b :: rest => pat.isPrefixOf (b :: rest) || containsSub pat rest

/-- Rust `str::find` on byte lists: byte index of the first occurrence of
`pat`, if any. -/
def findSub (pat : List Nat) : List Nat → Option Nat
  | [] => if pat.isEmpty then some 0 else none
  | b :: rest =>
    if pat.isPrefixOf (b :: rest) then some 0
    else (findSub pat rest).map (fun i => i + 1)

/-- Number of (possibly overlapping) occurrence positions of `pat`. -/
def countSub (pat : List Nat) : List Nat → Nat
  | [] => if pat.isEmpty then 1 else 0
  | b :: rest => (if pat.isPrefixOf (b :: rest) then 1 else 0) + countSub pat rest

/-- Rust `str::is_char_boundary` on the UTF-8 byte list: index 0 or the
length, or a byte that is not a UTF-8 continuation byte. -/
def isCharBoundary (l : List Nat) (i : Nat) : Bool :=
  if i = 0 then true
  else if h : i < l.length then
    let b := l.get ⟨i, h⟩
    b < 128 || 192 ≤ b
  else i = l.length

/-- Rust `String::insert_str self idx s`: `none` models the panic when
`idx` is not a char boundary (which includes `idx > len`). -/
def insertStr (l : List Nat) (i : Nat) (s : List Nat) : Option (List Nat) :=
  if isCharBoundary l i then some (l.take i ++ s ++ l.drop i) else none

/-- Rust `Path::extension` restricted to a plain file name: the portion of
the name after the last dot, none when there is no dot past position 0. -/
def extAux : List Char → Option (List Char) → Option (List Char)
  | [], acc => acc
  | c :: rest, acc => extAux rest (if c = Char.ofNat 46 then some rest else acc)

/-- Extension of a file name, following Rust `Path::extension`: a leading
dot does not begin an extension. -/
def extName (name : String) : Option String :=
  match name.toList with
  | [] => none
  | _ :: rest => (extAux rest none).map fun l => String.mk l

/-- A configured generator (main.rs struct Generator). -/
structure Generator where
  filter : String
  name : String
  command : List String
deriving DecidableEq, Repr

/-- The parsed configuration (main.rs struct Config). -/
structure Config where
  version : String
  generators : List Generator
deriving DecidableEq, Repr

/-- The I/O errors the model distinguishes. -/
inductive IoError where
  | notFound
  | other (code : Nat)
deriving DecidableEq, Repr

/-- How a run can fail: a panic from `Regex::new(..).unwrap()` (main.rs
line 86), a panic from `&command[0]` on an empty command (line 178), a
panic from `insert_str` (line 210), or a propagated I/O error. -/
inductive RunErr where
  | regexPanic
  | indexPanic
  | insertPanic
  | io (e : IoError)
deriving DecidableEq, Repr

/-- Result of a child process: exit-status success flag and the
lossy-decoded standard output (main.rs line 99 and 103). -/
structure ProcessOutput where
  success : Bool
  stdout : List Nat
deriving DecidableEq, Repr

def exceptDecEq {ε α : Type} [DecidableEq ε] [DecidableEq α] : DecidableEq (Except ε α) :=
  fun a b =>
  match a, b with
  | .error e, .error f =>
    if h : e = f then .isTrue (by rw [h]) else .isFalse (fun hh => h (Except.error.inj hh))
  | .ok x, .ok y =>
    if h : x = y then .isTrue (by rw [h]) else .isFalse (fun hh => h (Except.ok.inj hh))
  | .error _, .ok _ => .isFalse (fun hh => Except.noConfusion hh)
  | .ok _, .error _ => .isFalse (fun hh => Except.noConfusion hh)

instance : DecidableEq (Except IoError (List Nat)) := exceptDecEq

instance : DecidableEq
    (Except RunErr (List (String × Except IoError (List Nat)) × List String)) := exceptDecEq

instance : DecidableEq (Except IoError (List (String × Except IoError (List Nat)))) :=
  exceptDecEq

instance : DecidableEq (Except RunErr (List Nat × Bool)) := exceptDecEq

instance : DecidableEq (Except RunErr ProcessOutput) := exceptDecEq

instance : DecidableEq (Except RunErr (List (String × Except IoError (List Nat)) × Bool)) :=
  exceptDecEq

/-- A regex compiler oracle, modelling `regex::Regex::new`: `none` means the
pattern fails to compile, `some m` gives the compiled matcher
(`Regex::is_match`). -/
abbrev RegexCompiler := String → Option (String → Bool)

/-- A process runner oracle, modelling `apply_generator`'s spawn /
write-stdin / wait-with-output interaction for the executable, its
arguments and the bytes written to stdin: an `IoError` models a spawn or
pipe failure, otherwise the exit status and lossy-decoded stdout. -/
abbrev ProcessRunner := String → List String → List Nat → Except IoError ProcessOutput

/-- `apply_generator` (main.rs lines 177-195): `&command[0]` panics on an
empty command (modelled as `indexPanic`); spawn or I/O errors propagate. -/
def apply_generator (run : ProcessRunner) (command : List String) (input : List Nat) :
    Except RunErr ProcessOutput :=
  match command with
  | [] => .error .indexPanic
  | exe :: args =>
    match run exe args input with
    | .error e => .error (.io e)
    | .ok out => .ok out

/-- The inner generator loop of `generate_files` (main.rs lines 85-108) for
one file: compile each generator's filter (`unwrap` panics on an invalid
pattern), skip non-matching generators, run matching ones, discard the
output of a non-success exit, and update the content and the `updated`
flag when a successful generator's output differs. -/
def applyGenerators (compile : RegexCompiler) (run : ProcessRunner) (fileName : String) :
    List Generator → List Nat → Bool → Except RunErr (List Nat × Bool)
  | [], current, updated => .ok (current, updated)
  | g :: rest, current, updated =>
    match compile g.filter with
    | none => .error .regexPanic
    | some re =>
      if re fileName then
        match apply_generator run g.command current with
        | .error e => .error e
        | .ok out =>
          if out.success then
            if out.stdout = current then
              applyGenerators compile run fileName rest current updated
            else
              applyGenerators compile run fileName rest out.stdout true
          else
            applyGenerators compile run fileName rest current updated
      else
        applyGenerators compile run fileName rest current updated

/-- State of the `<data-home>/applications` directory: file name paired
with what `read_to_string` on it would yield. -/
abbrev Overrides := List (String × Except IoError (List Nat))

/-- The marker-insertion step of `write_new_desktop_file` (main.rs lines
204-214): if the content lacks the marker key, insert
`"\n" ++ key ++ "=" ++ version` at byte offset
`find("[Desktop Entry]").unwrap_or(0) + 15`; byte 10 is the newline and
byte 61 the equals sign. `none` models the `insert_str` panic. -/
def stampContent (version content : List Nat) : Option (List Nat) :=
  if containsSub overrideProperty content then some content
  else
    insertStr content
      ((findSub desktopEntryHeader content).getD 0 + desktopEntryHeader.length)
      (10 :: (overrideProperty ++ 61 :: version))

/-- `write_new_desktop_file` (main.rs lines 197-226): stamp the content,
then return without writing when the target already exists, otherwise
create the target file. The boolean records whether a write happened. -/
def write_new_desktop_file (version : List Nat) (ov : Overrides) (fileName : String)
    (content : List Nat) : Except RunErr (Overrides × Bool) :=
  match stampContent version content with
  | none => .error .insertPanic
  | some finalContent =>
    if (ov.map Prod.fst).contains fileName then .ok (ov, false)
    else .ok (ov ++ [(fileName, .ok finalContent)], true)

/-- The per-file loop of `generate_files` (main.rs lines 80-116): run the
generator chain on each source file's content and, when the content was
updated, write the new desktop file. Returns the resulting override
directory and the list of file names actually written. -/
def processSources (compile : RegexCompiler) (run : ProcessRunner) (version : List Nat)
    (gens : List Generator) :
    List (String × List Nat) → Overrides → List String → Except RunErr (Overrides × List String)
  | [], ov, writes => .ok (ov, writes)
  | (nm, content) :: rest, ov, writes =>
    match applyGenerators compile run nm gens content false with
    | .error e => .error e
    | .ok (finalContent, updated) =>
      if updated then
        match write_new_desktop_file version ov nm finalContent with
        | .error e => .error e
        | .ok (ov2, wrote) =>
          processSources compile run version gens rest ov2
            (if wrote then writes ++ [nm] else writes)
      else
        processSources compile run version gens rest ov writes

/-- `generate_files` (main.rs lines 66-119): configuration loading and YAML
parsing come first and their failure is fatal (`configResult` is the
outcome of `get_config_path` plus `serde_yaml::from_reader`); only then is
each discovered source file processed. -/
def generate_files (compile : RegexCompiler) (run : ProcessRunner) (version : List Nat)
    (configResult : Except IoError Config) (sources : List (String × List Nat))
    (ov : Overrides) : Except RunErr (Overrides × List String) :=
  match configResult with
  | .error e => .error (.io e)
  | .ok config => processSources compile run version config.generators sources ov []

/-- The sweep loop of `clean_generated_files` (main.rs lines 233-241): for
each entry with extension `desktop`, read it (a read error propagates and
aborts the sweep) and delete it when its content contains the marker key.
Returns the surviving entries. -/
def cleanSweep : Overrides → Except IoError Overrides
  | [] => .ok []
  | (nm, rc) :: rest =>
    if extName nm = some "desktop" then
      match rc with
      | .error e => .error e
      | .ok content =>
        if containsSub overrideProperty content then cleanSweep rest
        else
          match cleanSweep rest with
          | .error e => .error e
          | .ok r => .ok ((nm, rc) :: r)
    else
      match cleanSweep rest with
      | .error e => .error e
      | .ok r => .ok ((nm, rc) :: r)

/-- `clean_generated_files` (main.rs lines 228-244): `read_dir` on the
applications directory fails with `NotFound` when it does not exist
(`none`), and that error propagates; otherwise sweep its entries. -/
def clean_generated_files (dir : Option Overrides) : Except IoError Overrides :=
  match dir with
  | none => .error .notFound
  | some entries => cleanSweep entries

/-- An immediate entry of an `applications` directory: its file name and
whether it is a subdirectory. -/
structure DirEntry where
  name : String
  isDir : Bool
deriving DecidableEq, Repr

/-- The entry filter of `get_desktop_files` (main.rs lines 166-171): keep
every entry whose path extension is exactly `desktop`; the entry kind is
never consulted. -/
def collectDesktop (entries : List DirEntry) : List DirEntry :=
  entries.filter fun e => extName e.name == some "desktop"

/-- `get_desktop_files` (main.rs lines 154-175): for each data dir (in
`XDG_DATA_DIRS` order), skip it when its `applications` subdirectory does
not exist (`none`), otherwise collect its immediate `.desktop`-named
entries. -/
def get_desktop_files : List (Option (List DirEntry)) → List DirEntry
  | [] => []
  | none :: rest => get_desktop_files rest
  | some entries :: rest => collectDesktop entries ++ get_desktop_files rest

/-- All immediate entries of the existing `applications` directories, in
search order (vocabulary for stating what `get_desktop_files` keeps). -/
def existingEntries : List (Option (List DirEntry)) → List DirEntry
  | [] => []
  | none :: rest => existingEntries rest
  | some entries :: rest => entries ++ existingEntries rest

/-- The `generate` subcommand (main.rs lines 54-58): `clean_generated_files`
runs first — before the configuration is even loaded — and its failure
(including `NotFound` for a missing applications directory) aborts the
run; then `generate_files` runs on the swept directory state. -/
def generateRun (compile : RegexCompiler) (run : ProcessRunner) (version : List Nat)
    (configResult : Except IoError Config) (sources : List (String × List Nat))
    (dir : Option Overrides) : Except RunErr (Overrides × List String) :=
  match clean_generated_files dir with
  | .error e => .error (.io e)
  | .ok cleaned => generate_files compile run version configResult sources cleaned

/-- A regex oracle under which every pattern compiles and matches every
name (used to instantiate scenarios). -/
def compileAll : RegexCompiler := fun _ => some fun _ => true

/-- A regex oracle under which no pattern compiles, modelling an invalid
pattern such as an unbalanced parenthesis. -/
def compileNone : RegexCompiler := fun _ => none

/-- A process runner that always yields the same outcome. -/
def runConst (out : ProcessOutput) : ProcessRunner := fun _ _ _ => .ok out

/-- The tool version string, from `CARGO_PKG_VERSION` (the in-repo test at
main.rs line 303 pins it to 0.1.0). -/
def sampleVersion : List Nat := strBytes "0.1.0"

/-- The sample source content of the spec's section-8 scenario. -/
def sampleOriginal : List Nat := strBytes "[Desktop Entry]\nName=Original"

/-- The sample generator output of the spec's section-8 scenario. -/
def sampleOverridden : List Nat := strBytes "[Desktop Entry]\nName=Overridden"

/-- The sample generator of the spec's section-8 scenario. -/
def gSed : Generator :=
  ⟨"^foo.*\\.desktop$", "sed", ["sed", "-e", "s/Name=.*/Name=Overridden/"]⟩

/-- A one-generator configuration for the scenario runs. -/
def cfgSample : Config := ⟨"1", [gSed]⟩

/-- The stamped content the writer produces from `sampleOverridden`. -/
def stampedOverridden : List Nat :=
  strBytes "[Desktop Entry]" ++ 10 :: (overrideProperty ++ 61 :: sampleVersion)
    ++ strBytes "\nName=Overridden"

/-- The override directory after the first sample `generate` run. -/
def ovAfterFirstRun : Overrides := [("foo.desktop", .ok stampedOverridden)]

/-- A configuration whose only generator has an invalid filter pattern (an
unbalanced parenthesis, which `regex::Regex::new` rejects). -/
def cfgInvalidRegex : Config := ⟨"1", [⟨"(", "broken", ["true"]⟩]⟩

/-- A process runner whose child always fails (non-zero exit status). -/
def runFail : ProcessRunner := runConst ⟨false, strBytes "junk"⟩

/-- A process runner modelling the sample sed generator: success, with the
overridden content on stdout. -/
def runOverride : ProcessRunner := runConst ⟨true, sampleOverridden⟩

/-- An entry the cleaner deletes: named `*.desktop`, readable, and its
content contains the marker key. -/
def markedEntry (e : String × Except IoError (List Nat)) : Prop :=
  extName e.1 = some "desktop" ∧
    ∃ c, e.2 = Except.ok c ∧ containsSub overrideProperty c = true

theorem nil_isPrefixOf (l : List Nat) : ([] : List Nat).isPrefixOf l = true := by
  cases l <;> rfl

theorem cons_isPrefixOf_cons_eq (p a : Nat) (ps l : List Nat) :
    (p :: ps).isPrefixOf (a :: l) = ((p == a) && ps.isPrefixOf l) := rfl

theorem countSub_cons_eq (pat : List Nat) (b : Nat) (rest : List Nat) :
    countSub pat (b :: rest) =
      (if pat.isPrefixOf (b :: rest) = true then 1 else 0) + countSub pat rest := rfl

theorem isPrefixOf_append_self : ∀ (pat x : List Nat), pat.isPrefixOf (pat ++ x) = true
  | [], x => nil_isPrefixOf x
  | p :: ps, x => by
    rw [List.cons_append, cons_isPrefixOf_cons_eq, isPrefixOf_append_self ps x]
    simp

theorem isPrefixOf_append_of_isPrefixOf :
    ∀ (pat u w : List Nat), pat.isPrefixOf u = true → pat.isPrefixOf (u ++ w) = true
  | [], u, w, _ => nil_isPrefixOf (u ++ w)
  | p :: ps, [], _, h => by exact absurd h (by simp [List.isPrefixOf])
  | p :: ps, a :: u, w, h => by
    rw [cons_isPrefixOf_cons_eq, Bool.and_eq_true] at h
    rw [List.cons_append, cons_isPrefixOf_cons_eq, h.1,
      isPrefixOf_append_of_isPrefixOf ps u w h.2]
    rfl

theorem isPrefixOf_append_cons_of_notMem :
    ∀ (pat u w : List Nat) (c : Nat), c ∉ pat →
      pat.isPrefixOf (u ++ c :: w) = pat.isPrefixOf u
  | [], u, w, c, _ => by rw [nil_isPrefixOf, nil_isPrefixOf]
  | p :: ps, [], w, c, h => by
    have hpc : (p == c) = false := by
      simp only [beq_eq_false_iff_ne]
      rintro rfl
      exact h (List.mem_cons_self p ps)
    rw [List.nil_append, cons_isPrefixOf_cons_eq, hpc]
    rfl
  | p :: ps, a :: u, w, c, h => by
    have hps : c ∉ ps := fun hh => h (List.mem_cons_of_mem _ hh)
    rw [List.cons_append, cons_isPrefixOf_cons_eq, cons_isPrefixOf_cons_eq,
      isPrefixOf_append_cons_of_notMem ps u w c hps]

theorem countSub_cons_nil (h : Nat) (pt : List Nat) : countSub (h :: pt) [] = 0 := by
  simp [countSub]

theorem countSub_append_cons_of_notMem (h : Nat) (pt : List Nat) {c : Nat}
    (hc : c ∉ h :: pt) :
    ∀ (u w : List Nat), countSub (h :: pt) (u ++ c :: w) =
      countSub (h :: pt) u + countSub (h :: pt) w
  | [], w => by
    have h0 : (h :: pt).isPrefixOf (([] : List Nat) ++ c :: w) = (h :: pt).isPrefixOf [] :=
      isPrefixOf_append_cons_of_notMem (h :: pt) [] w c hc
    rw [List.nil_append] at h0
    rw [List.nil_append, countSub_cons_eq, h0, countSub_cons_nil]
    simp [List.isPrefixOf]
  | a :: u, w => by
    have h0 : (h :: pt).isPrefixOf ((a :: u) ++ c :: w) = (h :: pt).isPrefixOf (a :: u) :=
      isPrefixOf_append_cons_of_notMem (h :: pt) (a :: u) w c hc
    rw [List.cons_append] at h0
    rw [List.cons_append, countSub_cons_eq, h0, countSub_cons_eq,
      countSub_append_cons_of_notMem h pt hc u w]
    omega

theorem countSub_append_of_head_notMem (h : Nat) (pt : List Nat) :
    ∀ (v B : List Nat), h ∉ v → countSub (h :: pt) (v ++ B) = countSub (h :: pt) B
  | [], B, _ => by rw [List.nil_append]
  | a :: v, B, hv => by
    have hha : (h == a) = false := by
      simp only [beq_eq_false_iff_ne]
      rintro rfl
      exact hv (List.mem_cons_self h v)
    have hv2 : h ∉ v := fun hh => hv (List.mem_cons_of_mem _ hh)
    rw [List.cons_append, countSub_cons_eq, cons_isPrefixOf_cons_eq, hha,
      Bool.false_and, countSub_append_of_head_notMem h pt v B hv2]
    simp

theorem countSub_left_le_append (h : Nat) (pt : List Nat) :
    ∀ (u w : List Nat), countSub (h :: pt) u ≤ countSub (h :: pt) (u ++ w)
  | [], w => by simp [countSub_cons_nil]
  | a :: u, w => by
    have hle := countSub_left_le_append h pt u w
    rw [List.cons_append, countSub_cons_eq, countSub_cons_eq]
    by_cases hp : (h :: pt).isPrefixOf (a :: u) = true
    · rw [if_pos hp,
        if_pos (by simpa using isPrefixOf_append_of_isPrefixOf (h :: pt) (a :: u) w hp)]
      omega
    · rw [if_neg hp]
      split
      · omega
      · omega

theorem countSub_right_le_append (h : Nat) (pt : List Nat) :
    ∀ (u w : List Nat), countSub (h :: pt) w ≤ countSub (h :: pt) (u ++ w)
  | [], w => Nat.le_refl _
  | a :: u, w => by
    have hle := countSub_right_le_append h pt u w
    rw [List.cons_append, countSub_cons_eq]
    omega

theorem countSub_append_eq_zero (h : Nat) (pt : List Nat) (u w : List Nat)
    (hz : countSub (h :: pt) (u ++ w) = 0) :
    countSub (h :: pt) u = 0 ∧ countSub (h :: pt) w = 0 := by
  have h1 := countSub_left_le_append h pt u w
  have h2 := countSub_right_le_append h pt u w
  omega

theorem containsSub_cons_eq (pat : List Nat) (b : Nat) (rest : List Nat) :
    containsSub pat (b :: rest) = (pat.isPrefixOf (b :: rest) || containsSub pat rest) := rfl

theorem containsSub_iff_countSub_pos (pat : List Nat) :
    ∀ l : List Nat, containsSub pat l = true ↔ 0 < countSub pat l
  | [] => by
    cases pat <;> simp [containsSub, countSub]
  | b :: rest => by
    have ih := containsSub_iff_countSub_pos pat rest
    rw [containsSub_cons_eq, countSub_cons_eq, Bool.or_eq_true, ih]
    by_cases hp : pat.isPrefixOf (b :: rest) = true
    · simp [hp]
    · simp [hp]

theorem containsSub_self_append (pat x : List Nat) : containsSub pat (pat ++ x) = true := by
  cases pat with
  | nil => cases x <;> simp [containsSub]
  | cons p ps =>
    rw [List.cons_append, containsSub_cons_eq]
    have h := isPrefixOf_append_self (p :: ps) x
    rw [List.cons_append] at h
    rw [h]
    rfl

theorem containsSub_append_right (pat : List Nat) :
    ∀ (u l : List Nat), containsSub pat l = true → containsSub pat (u ++ l) = true
  | [], l, h => h
  | a :: u, l, h => by
    rw [List.cons_append, containsSub_cons_eq, containsSub_append_right pat u l h]
    simp

theorem containsSub_cons_of (pat : List Nat) (b : Nat) (l : List Nat)
    (h : containsSub pat l = true) : containsSub pat (b :: l) = true := by
  rw [containsSub_cons_eq, h]
  simp

/-- The marker key without its leading byte 88 (the letter X). -/
def opTail : List Nat := strBytes "-XDG-Desktop-File-Override-Version"

theorem overrideProperty_eq_cons : overrideProperty = 88 :: opTail := by decide

theorem stampContent_some_shape (version content f : List Nat)
    (hst : stampContent version content = some f) :
    (containsSub overrideProperty content = true ∧ f = content) ∨
      (containsSub overrideProperty content = false ∧
        ∃ A B, A ++ B = content ∧
          f = A ++ (10 :: (overrideProperty ++ (61 :: (version ++ B))))) := by
  by_cases hc : containsSub overrideProperty content = true
  · left
    refine ⟨hc, ?_⟩
    rw [stampContent, if_pos hc] at hst
    exact (Option.some.inj hst).symm
  · right
    refine ⟨by simpa using hc, ?_⟩
    rw [stampContent, if_neg hc, insertStr] at hst
    by_cases hb : isCharBoundary content
        ((findSub desktopEntryHeader content).getD 0 + desktopEntryHeader.length) = true
    · rw [if_pos hb] at hst
      refine ⟨content.take ((findSub desktopEntryHeader content).getD 0 +
        desktopEntryHeader.length), content.drop ((findSub desktopEntryHeader content).getD 0 +
          desktopEntryHeader.length), List.take_append_drop _ _, ?_⟩
      rw [← Option.some.inj hst]
      simp [List.append_assoc]
    · rw [if_neg hb] at hst
      exact absurd hst (by simp)

theorem stampContent_contains (version content f : List Nat)
    (hst : stampContent version content = some f) :
    containsSub overrideProperty f = true := by
  rcases stampContent_some_shape version content f hst with ⟨hc, rfl⟩ | ⟨_, A, B, _, rfl⟩
  · exact hc
  · exact containsSub_append_right _ A _
      (containsSub_cons_of _ 10 _ (containsSub_self_append _ _))

theorem stampContent_count_one (version content f : List Nat)
    (hz : countSub overrideProperty content = 0)
    (hv : (88 : Nat) ∉ version)
    (hst : stampContent version content = some f) :
    countSub overrideProperty f = 1 := by
  rcases stampContent_some_shape version content f hst with ⟨hc, rfl⟩ | ⟨_, A, B, hab, rfl⟩
  · rw [containsSub_iff_countSub_pos] at hc
    omega
  · rw [overrideProperty_eq_cons] at hz ⊢
    have h10 : (10 : Nat) ∉ (88 :: opTail) := by decide
    have h61 : (61 : Nat) ∉ (88 :: opTail) := by decide
    have hz2 : countSub (88 :: opTail) (A ++ B) = 0 := by rw [hab]; exact hz
    obtain ⟨hzA, hzB⟩ := countSub_append_eq_zero 88 opTail A B hz2
    have s1 := @countSub_append_cons_of_notMem 88 opTail 10 h10 A
      ((88 :: opTail) ++ (61 :: (version ++ B)))
    have s2 := @countSub_append_cons_of_notMem 88 opTail 61 h61 (88 :: opTail) (version ++ B)
    have s3 : countSub (88 :: opTail) (88 :: opTail) = 1 := by decide
    have s4 := countSub_append_of_head_notMem 88 opTail version B hv
    rw [s1, s2, s3, s4, hzA, hzB]

theorem cleanSweep_idem : ∀ (xs ys : Overrides), cleanSweep xs = .ok ys → cleanSweep ys = .ok ys
  | [], ys, h => by
    simp only [cleanSweep] at h
    rw [← Except.ok.inj h]
    rfl
  | (nm, rc) :: rest, ys, h => by
    by_cases hd : extName nm = some "desktop"
    · cases rc with
      | error e => simp [cleanSweep, hd] at h
      | ok content =>
        by_cases hm : containsSub overrideProperty content = true
        · rw [show cleanSweep ((nm, Except.ok content) :: rest) = cleanSweep rest from by
            simp [cleanSweep, hd, hm]] at h
          exact cleanSweep_idem rest ys h
        · cases hcr : cleanSweep rest with
          | error e => simp [cleanSweep, hd, hm, hcr] at h
          | ok r =>
            simp only [cleanSweep, hd, if_pos, hm, if_neg, hcr] at h
            rw [← Except.ok.inj h]
            simp [cleanSweep, hd, hm, cleanSweep_idem rest r hcr]
    · cases hcr : cleanSweep rest with
      | error e => simp [cleanSweep, hd, hcr] at h
      | ok r =>
        simp only [cleanSweep, hd, if_neg, hcr] at h
        rw [← Except.ok.inj h]
        simp [cleanSweep, hd, cleanSweep_idem rest r hcr]

theorem cleanSweep_marked_nil :
    ∀ ms : Overrides, (∀ e ∈ ms, markedEntry e) → cleanSweep ms = .ok []
  | [], _ => rfl
  | (nm, rc) :: rest, h => by
    obtain ⟨hd, c, hc, hm⟩ := h _ (List.mem_cons_self _ _)
    simp only at hc
    subst hc
    simp [cleanSweep, hd, hm,
      cleanSweep_marked_nil rest (fun e he => h e (List.mem_cons_of_mem _ he))]

theorem cleanSweep_append_marked :
    ∀ (xs ys ms : Overrides), (∀ e ∈ ms, markedEntry e) →
      cleanSweep xs = .ok ys → cleanSweep (xs ++ ms) = .ok ys
  | [], ys, ms, hmk, h => by
    simp only [cleanSweep] at h
    rw [List.nil_append, ← Except.ok.inj h]
    exact cleanSweep_marked_nil ms hmk
  | (nm, rc) :: rest, ys, ms, hmk, h => by
    by_cases hd : extName nm = some "desktop"
    · cases rc with
      | error e => simp [cleanSweep, hd] at h
      | ok content =>
        by_cases hm : containsSub overrideProperty content = true
        · rw [show cleanSweep ((nm, Except.ok content) :: rest) = cleanSweep rest from by
            simp [cleanSweep, hd, hm]] at h
          rw [List.cons_append]
          rw [show cleanSweep ((nm, Except.ok content) :: (rest ++ ms)) =
            cleanSweep (rest ++ ms) from by simp [cleanSweep, hd, hm]]
          exact cleanSweep_append_marked rest ys ms hmk h
        · cases hcr : cleanSweep rest with
          | error e => simp [cleanSweep, hd, hm, hcr] at h
          | ok r =>
            simp only [cleanSweep, hd, if_pos, hm, if_neg, hcr] at h
            rw [List.cons_append, ← Except.ok.inj h]
            simp [cleanSweep, hd, hm, cleanSweep_append_marked rest r ms hmk hcr]
    · cases hcr : cleanSweep rest with
      | error e => simp [cleanSweep, hd, hcr] at h
      | ok r =>
        simp only [cleanSweep, hd, if_neg, hcr] at h
        rw [List.cons_append, ← Except.ok.inj h]
        simp [cleanSweep, hd, cleanSweep_append_marked rest r ms hmk hcr]

theorem write_new_desktop_file_shape (version : List Nat) (ov : Overrides) (nm : String)
    (content : List Nat) (ov2 : Overrides) (wrote : Bool)
    (hw : write_new_desktop_file version ov nm content = .ok (ov2, wrote)) :
    ov2 = ov ∨ ∃ final, stampContent version content = some final ∧
      ov2 = ov ++ [(nm, Except.ok final)] := by
  cases hstc : stampContent version content with
  | none => rw [write_new_desktop_file, hstc] at hw; exact absurd hw (by simp)
  | some final =>
    rw [write_new_desktop_file, hstc] at hw
    dsimp only at hw
    by_cases hex : ((ov.map Prod.fst).contains nm) = true
    · rw [if_pos hex] at hw
      exact Or.inl (congrArg Prod.fst (Except.ok.inj hw)).symm
    · rw [if_neg hex] at hw
      exact Or.inr ⟨final, rfl, (congrArg Prod.fst (Except.ok.inj hw)).symm⟩

theorem processSources_shape (compile : RegexCompiler) (run : ProcessRunner)
    (version : List Nat) (gens : List Generator) :
    ∀ (sources : List (String × List Nat)) (ov : Overrides) (acc : List String)
      (st : Overrides) (w : List String),
      (∀ s ∈ sources, extName s.1 = some "desktop") →
      processSources compile run version gens sources ov acc = .ok (st, w) →
      ∃ suffix, st = ov ++ suffix ∧ ∀ e ∈ suffix, markedEntry e
  | [], ov, acc, st, w, _, h => by
    simp only [processSources] at h
    obtain ⟨h1, _⟩ := Prod.mk.injEq .. ▸ Except.ok.inj h
    exact ⟨[], by simp [h1], by simp⟩
  | (nm, content) :: rest, ov, acc, st, w, hsrc, h => by
    cases hag : applyGenerators compile run nm gens content false with
    | error e => simp [processSources, hag] at h
    | ok res =>
      obtain ⟨finalC, updated⟩ := res
      cases updated with
      | false =>
        have h2 : processSources compile run version gens rest ov acc = .ok (st, w) := by
          simpa [processSources, hag] using h
        exact processSources_shape compile run version gens rest ov acc st w
          (fun s hs => hsrc s (List.mem_cons_of_mem _ hs)) h2
      | true =>
        cases hw : write_new_desktop_file version ov nm finalC with
        | error e => simp [processSources, hag, hw] at h
        | ok res2 =>
          obtain ⟨ov2, wrote⟩ := res2
          have h2 : processSources compile run version gens rest ov2
              (if wrote = true then acc ++ [nm] else acc) = .ok (st, w) := by
            simpa [processSources, hag, hw] using h
          obtain ⟨suffix, hst, hmk⟩ := processSources_shape compile run version gens rest ov2
            (if wrote = true then acc ++ [nm] else acc) st w
            (fun s hs => hsrc s (List.mem_cons_of_mem _ hs)) h2
          rcases write_new_desktop_file_shape version ov nm finalC ov2 wrote hw with
            hov | ⟨final, hstc, hov⟩
          · exact ⟨suffix, by rw [hst, hov], hmk⟩
          · refine ⟨(nm, Except.ok final) :: suffix, ?_, ?_⟩
            · rw [hst, hov, List.append_assoc]
              rfl
            · intro e he
              rcases List.mem_cons.mp he with rfl | he2
              · exact ⟨hsrc (nm, content) (List.mem_cons_self _ _), final, rfl,
                  stampContent_contains version finalC final hstc⟩
              · exact hmk e he2

theorem applyGenerators_all_fail (compile : RegexCompiler) (run : ProcessRunner)
    (fileName : String) (original : List Nat) :
    ∀ gens : List Generator,
      (∀ g ∈ gens, (compile g.filter).isSome = true) →
      (∀ g ∈ gens, ∀ m, compile g.filter = some m → m fileName = true →
        Except.map ProcessOutput.success (apply_generator run g.command original) =
          Except.ok false) →
      applyGenerators compile run fileName gens original false = .ok (original, false)
  | [], _, _ => rfl
  | g :: rest, hc, hr => by
    have hrest := applyGenerators_all_fail compile run fileName original rest
      (fun g hg => hc g (List.mem_cons_of_mem _ hg))
      (fun g hg => hr g (List.mem_cons_of_mem _ hg))
    obtain ⟨m, hm⟩ := Option.isSome_iff_exists.mp (hc g (List.mem_cons_self _ _))
    cases hmatch : m fileName with
    | false => simp [applyGenerators, hm, hmatch, hrest]
    | true =>
      have hout := hr g (List.mem_cons_self _ _) m hm hmatch
      cases hag : apply_generator run g.command original with
      | error e => rw [hag] at hout; simp [Except.map] at hout
      | ok out =>
        rw [hag] at hout
        have hsucc : out.success = false := by simpa [Except.map] using hout
        simp [applyGenerators, hm, hmatch, hag, hsucc, hrest]

/-- C3: the claim says that for content lacking both the marker key and the
`[Desktop Entry]` header, the writer inserts the marker at content position
zero and still produces a usable file. The code instead computes the
insertion offset as `unwrap_or(0) + len("[Desktop Entry]") = 15`: on the
6-byte header-less content `Name=A` the `insert_str` call panics, and on
the 16-byte header-less content `Name=Application` the marker is spliced
in at byte 15, in the middle of the text, not at position zero. -/
theorem claim_C3 :
    stampContent sampleVersion (strBytes "Name=A") = none
    ∧ stampContent sampleVersion (strBytes "Name=Application") =
        some (strBytes "Name=Applicatio" ++
          10 :: (overrideProperty ++ 61 :: sampleVersion) ++ strBytes "n") := by
  decide

/-- C4: amended. When `<write-base>/applications` does not exist, `clean`
does not treat it as nothing to clean: the `read_dir` NotFound error is
propagated and the run fails; an existing (even empty) directory yields a
successful sweep. -/
theorem claim_C4 :
    clean_generated_files none = .error IoError.notFound
    ∧ clean_generated_files (some []) = .ok [] := by
  decide

/-- C4 counterexample: with no applications directory, `clean` returns the
NotFound error rather than returning successfully as the claim states. -/
theorem claim_C4_counterexample :
    clean_generated_files none = Except.error IoError.notFound := by
  decide

/-- C8: amended. An error reading an individual `.desktop` file under the
applications directory aborts the whole sweep immediately: the error is
propagated as the sweep's result (so it is not silently ignored, but the
remaining entries are not examined). -/
theorem claim_C8 : ∀ (nm : String) (e : IoError) (rest : Overrides),
    extName nm = some "desktop" →
    cleanSweep ((nm, Except.error e) :: rest) = .error e := by
  intro nm e rest hd
  simp [cleanSweep, hd]

/-- C8 witness: a concrete sweep aborted by the read error on its first
entry. -/
theorem claim_C8_witness :
    cleanSweep [("a.desktop", Except.error (IoError.other 5)),
      ("b.desktop", Except.ok overrideProperty)] = .error (IoError.other 5) :=
  claim_C8 "a.desktop" (IoError.other 5)
    [("b.desktop", Except.ok overrideProperty)] (by decide)

/-- C8 counterexample: a read error on `a.desktop` makes the whole sweep
fail, and the marked entry `b.desktop` — which a continued sweep would have
removed, as the second conjunct shows — is never examined. -/
theorem claim_C8_counterexample :
    cleanSweep [("a.desktop", Except.error (IoError.other 7)),
      ("b.desktop", Except.ok overrideProperty)] = .error (IoError.other 7)
    ∧ cleanSweep [("b.desktop", Except.ok overrideProperty)] = .ok [] := by
  decide

/-- C9: amended. Entry discovery lists only the immediate entries of each
existing `applications` directory (no recursion) and keeps exactly those
entries whose extension is `desktop` — regardless of whether the entry is
a file or a subdirectory, since the entry kind is never consulted. -/
theorem claim_C9 : ∀ dirs : List (Option (List DirEntry)),
    get_desktop_files dirs =
      (existingEntries dirs).filter fun e => extName e.name == some "desktop" := by
  intro dirs
  induction dirs with
  | nil => rfl
  | cons d rest ih =>
    cases d with
    | none => simpa [get_desktop_files, existingEntries] using ih
    | some es =>
      simp [get_desktop_files, existingEntries, collectDesktop, List.filter_append, ih]

/-- C9 counterexample: a subdirectory named `sub.desktop` is collected by
discovery, although the claim states that subdirectories are ignored. -/
theorem claim_C9_counterexample :
    get_desktop_files [some [⟨"sub.desktop", true⟩]] = [⟨"sub.desktop", true⟩] := by
  decide

/-- C7: amended. If a file already exists at the writer's target path and
the marker-insertion step does not panic, the write does nothing and
returns successfully, leaving the directory state unchanged (first write
wins); the insertion step runs before the existence check, so its panic is
the one exception. -/
theorem claim_C7 : ∀ (version : List Nat) (ov : Overrides) (nm : String) (content : List Nat),
    (ov.map Prod.fst).contains nm = true →
    (stampContent version content).isSome = true →
    write_new_desktop_file version ov nm content = .ok (ov, false) := by
  intro version ov nm content hex hsome
  obtain ⟨final, hf⟩ := Option.isSome_iff_exists.mp hsome
  rw [write_new_desktop_file, hf]
  dsimp only
  rw [if_pos hex]

/-- C7 witness: writing over an existing `foo.desktop` is a successful
no-op. -/
theorem claim_C7_witness :
    write_new_desktop_file sampleVersion ovAfterFirstRun "foo.desktop" sampleOverridden =
      .ok (ovAfterFirstRun, false) :=
  claim_C7 sampleVersion ovAfterFirstRun "foo.desktop" sampleOverridden
    (by decide) (by decide)

/-- C7 counterexample: the target `a.desktop` already exists, yet the call
does not return successfully — the marker-insertion step panics on the
short header-less content before the existence check is reached. -/
theorem claim_C7_counterexample :
    write_new_desktop_file sampleVersion [("a.desktop", Except.ok sampleOriginal)]
      "a.desktop" (strBytes "Name=A") = .error RunErr.insertPanic := by
  decide

/-- C10: under the precondition that every generator's `command` has at
least one element, invoking a generator never fails on the command lookup
(no `indexPanic` anywhere in the pipeline); and a generator with an empty
`command` whose filter matches a discovered file makes the pipeline panic
on that indexing instead of reporting a diagnosed configuration error. -/
theorem claim_C10 :
    (∀ (run : ProcessRunner) (command : List String) (input : List Nat),
      command ≠ [] → apply_generator run command input ≠ .error RunErr.indexPanic)
    ∧ (∀ (compile : RegexCompiler) (run : ProcessRunner) (fileName : String)
        (gens : List Generator) (current : List Nat) (updated : Bool),
        (∀ g ∈ gens, g.command ≠ []) →
        applyGenerators compile run fileName gens current updated ≠ .error RunErr.indexPanic)
    ∧ applyGenerators compileAll (runConst ⟨true, []⟩) "foo.desktop"
        [⟨".*", "broken", []⟩] sampleOriginal false = .error RunErr.indexPanic := by
  have part1 : ∀ (run : ProcessRunner) (command : List String) (input : List Nat),
      command ≠ [] → apply_generator run command input ≠ .error RunErr.indexPanic := by
    intro run command input hne
    cases command with
    | nil => exact absurd rfl hne
    | cons exe args =>
      rw [apply_generator]
      cases run exe args input with
      | error e => simp
      | ok out => simp
  refine ⟨part1, ?_, by decide⟩
  intro compile run fileName gens
  induction gens with
  | nil =>
    intro current updated _
    simp [applyGenerators]
  | cons g rest ih =>
    intro current updated hcmd
    have hrest := fun current updated =>
      ih current updated (fun g hg => hcmd g (List.mem_cons_of_mem _ hg))
    cases hcg : compile g.filter with
    | none => simp [applyGenerators, hcg]
    | some re =>
      cases hmatch : re fileName with
      | false => simpa [applyGenerators, hcg, hmatch] using hrest current updated
      | true =>
        cases hag : apply_generator run g.command current with
        | error e =>
          have hne := part1 run g.command current (hcmd g (List.mem_cons_self _ _))
          rw [hag] at hne
          simpa [applyGenerators, hcg, hmatch, hag] using hne
        | ok out =>
          cases hsucc : out.success with
          | false => simpa [applyGenerators, hcg, hmatch, hag, hsucc] using hrest current updated
          | true =>
            by_cases hstd : out.stdout = current
            · simpa [applyGenerators, hcg, hmatch, hag, hsucc, hstd] using
                hrest current updated
            · simpa [applyGenerators, hcg, hmatch, hag, hsucc, hstd] using
                hrest out.stdout true

/-- C10 witness: with a non-empty command, the pipeline run does not hit
the indexing panic. -/
theorem claim_C10_witness :
    applyGenerators compileAll (runConst ⟨true, strBytes "x"⟩) "a.desktop" [gSed]
      sampleOriginal false ≠ .error RunErr.indexPanic :=
  claim_C10.2.1 compileAll (runConst ⟨true, strBytes "x"⟩) "a.desktop" [gSed]
    sampleOriginal false (by decide)

/-- C2: amended. A missing configuration file or malformed YAML (a failed
configuration load) aborts `generate_files` before any source file is
processed or written. An invalid filter regex, however, is not checked
once at startup: it is compiled inside the per-file loop, so it panics
only when the first discovered file is processed, and a run whose
configuration contains an invalid regex succeeds when no files are
discovered. (In `generate` mode the clean phase also runs before the
configuration is loaded.) -/
theorem claim_C2 :
    (∀ (compile : RegexCompiler) (run : ProcessRunner) (version : List Nat) (e : IoError)
      (sources : List (String × List Nat)) (ov : Overrides),
      generate_files compile run version (.error e) sources ov = .error (.io e))
    ∧ generate_files compileNone (runConst ⟨true, []⟩) sampleVersion (.ok cfgInvalidRegex)
        [("foo.desktop", sampleOriginal)] [] = .error RunErr.regexPanic
    ∧ generate_files compileNone (runConst ⟨true, []⟩) sampleVersion (.ok cfgInvalidRegex)
        [] [] = .ok ([], []) := by
  exact ⟨fun compile run version e sources ov => rfl, by decide, by decide⟩

/-- C2 counterexample: a `generate` run whose configuration holds an
invalid regex is not fatal when no desktop file is discovered (first
conjunct), and with one discovered file the failure is a panic raised
during per-file processing, not a startup configuration error (second
conjunct). -/
theorem claim_C2_counterexample :
    generate_files compileNone runFail sampleVersion (.ok cfgInvalidRegex) [] [] = .ok ([], [])
    ∧ generate_files compileNone runFail sampleVersion (.ok cfgInvalidRegex)
        [("bar.desktop", strBytes "[Desktop Entry]")] [] = .error RunErr.regexPanic := by
  decide

/-- C6: if every generator whose filter matches the file name runs and
exits with a non-success status (its output being discarded and the
pipeline proceeding with the prior content), the final content equals the
original content and the changed flag is false, so no file is written for
that source. -/
theorem claim_C6 : ∀ (compile : RegexCompiler) (run : ProcessRunner) (version : List Nat)
    (gens : List Generator) (fileName : String) (original : List Nat) (ov : Overrides),
    (∀ g ∈ gens, (compile g.filter).isSome = true) →
    (∀ g ∈ gens, ∀ m, compile g.filter = some m → m fileName = true →
      Except.map ProcessOutput.success (apply_generator run g.command original) =
        Except.ok false) →
    applyGenerators compile run fileName gens original false = .ok (original, false)
    ∧ processSources compile run version gens [(fileName, original)] ov [] = .ok (ov, []) := by
  intro compile run version gens fileName original ov hc hr
  have main := applyGenerators_all_fail compile run fileName original gens hc hr
  exact ⟨main, by simp [processSources, main]⟩

/-- C6 witness: the sample generator matched and failed, leaving the
original content and no write. -/
theorem claim_C6_witness :
    applyGenerators compileAll runFail "foo.desktop" [gSed] sampleOriginal false =
      .ok (sampleOriginal, false)
    ∧ processSources compileAll runFail sampleVersion [gSed]
        [("foo.desktop", sampleOriginal)] [] [] = .ok ([], []) :=
  claim_C6 compileAll runFail sampleVersion [gSed] "foo.desktop" sampleOriginal []
    (by intro g hg; rw [List.mem_singleton.mp hg]; rfl)
    (by intro g hg m hm hmatch; rw [List.mem_singleton.mp hg]; rfl)

/-- C5: amended. For any version string not containing the byte X (true of
the tool's version `0.1.0`): when the input content contains no occurrence
of the marker key, a successful stamping yields content with exactly one
occurrence of the key; when the input already contains the key no
insertion occurs (the content is written unchanged, with as many
occurrences as the input had); every successfully stamped content contains
the key and is therefore removed by the cleaner's sweep when its name has
the `desktop` extension; and an entry whose content does not contain the
key as a substring is never removed by the sweep. -/
theorem claim_C5 : ∀ (version content final : List Nat) (nm : String) (rest : Overrides),
    (88 : Nat) ∉ version →
    ((countSub overrideProperty content = 0 → stampContent version content = some final →
        countSub overrideProperty final = 1)
      ∧ (containsSub overrideProperty content = true →
          stampContent version content = some content)
      ∧ (stampContent version content = some final →
          containsSub overrideProperty final = true)
      ∧ (stampContent version content = some final → extName nm = some "desktop" →
          cleanSweep ((nm, Except.ok final) :: rest) = cleanSweep rest)
      ∧ (containsSub overrideProperty content = false →
          cleanSweep ((nm, Except.ok content) :: rest) =
            Except.map (fun r => (nm, Except.ok content) :: r) (cleanSweep rest))) := by
  intro version content final nm rest hv
  refine ⟨fun hz hst => stampContent_count_one version content final hz hv hst,
    fun hc => by rw [stampContent, if_pos hc],
    stampContent_contains version content final,
    fun hst hd => ?_, fun hc => ?_⟩
  · have hm := stampContent_contains version content final hst
    simp [cleanSweep, hd, hm]
  · by_cases hd : extName nm = some "desktop"
    · cases hcr : cleanSweep rest with
      | error e => simp [cleanSweep, hd, hc, hcr, Except.map]
      | ok r => simp [cleanSweep, hd, hc, hcr, Except.map]
    · cases hcr : cleanSweep rest with
      | error e => simp [cleanSweep, hd, hcr, Except.map]
      | ok r => simp [cleanSweep, hd, hcr, Except.map]

/-- C5 witness: the sample scenario — stamping the overridden content
yields exactly one marker occurrence, the stamped file is swept away, and
the unmarked original survives a sweep. -/
theorem claim_C5_witness :
    (countSub overrideProperty sampleOverridden = 0 →
        stampContent sampleVersion sampleOverridden = some stampedOverridden →
        countSub overrideProperty stampedOverridden = 1)
    ∧ (containsSub overrideProperty sampleOverridden = true →
        stampContent sampleVersion sampleOverridden = some sampleOverridden)
    ∧ (stampContent sampleVersion sampleOverridden = some stampedOverridden →
        containsSub overrideProperty stampedOverridden = true)
    ∧ (stampContent sampleVersion sampleOverridden = some stampedOverridden →
        extName "foo.desktop" = some "desktop" →
        cleanSweep [("foo.desktop", Except.ok stampedOverridden)] = cleanSweep [])
    ∧ (containsSub overrideProperty sampleOverridden = false →
        cleanSweep [("foo.desktop", Except.ok sampleOverridden)] =
          Except.map (fun r => ("foo.desktop", Except.ok sampleOverridden) :: r)
            (cleanSweep [])) :=
  claim_C5 sampleVersion sampleOverridden stampedOverridden "foo.desktop" [] (by decide)

/-- C5 counterexample: a generator output already containing the marker
key twice is written as-is, so the written file holds two occurrences of
the key, not exactly one as the claim states. -/
theorem claim_C5_counterexample :
    write_new_desktop_file sampleVersion [] "foo.desktop"
        (overrideProperty ++ overrideProperty) =
      .ok ([("foo.desktop", Except.ok (overrideProperty ++ overrideProperty))], true)
    ∧ countSub overrideProperty (overrideProperty ++ overrideProperty) = 2 := by
  decide

/-- C1: amended. When a `generate` run succeeds, running `generate` again
with the same configuration, oracles and source files succeeds with the
identical final override state and the identical list of written targets:
the second run's clean phase first deletes every file the first run wrote
(each carries the marker and a `.desktop` name), and the writer then
re-creates the same target paths — the existing-target check suppresses
none of the second run's writes, because no first-run output still exists
when the writer reaches it. -/
theorem claim_C1 : ∀ (compile : RegexCompiler) (run : ProcessRunner) (version : List Nat)
    (config : Config) (sources : List (String × List Nat)) (ov0 st1 : Overrides)
    (w1 : List String),
    (∀ s ∈ sources, extName s.1 = some "desktop") →
    generateRun compile run version (.ok config) sources (some ov0) = .ok (st1, w1) →
    generateRun compile run version (.ok config) sources (some st1) = .ok (st1, w1) := by
  intro compile run version config sources ov0 st1 w1 hsrc h1
  rw [generateRun, clean_generated_files] at h1
  cases hcs : cleanSweep ov0 with
  | error e => rw [hcs] at h1; exact absurd h1 (by simp)
  | ok cleaned =>
    rw [hcs] at h1
    dsimp only at h1
    rw [generate_files] at h1
    obtain ⟨suffix, hst, hmk⟩ := processSources_shape compile run version config.generators
      sources cleaned [] st1 w1 hsrc h1
    have hidem : cleanSweep cleaned = .ok cleaned := cleanSweep_idem ov0 cleaned hcs
    have hclean2 : cleanSweep st1 = .ok cleaned := by
      rw [hst]
      exact cleanSweep_append_marked cleaned cleaned suffix hmk hidem
    rw [generateRun, clean_generated_files, hclean2]
    dsimp only
    rw [generate_files]
    exact h1

/-- C1 witness: the second sample `generate` run reproduces exactly the
first run's final state and write list. -/
theorem claim_C1_witness :
    generateRun compileAll runOverride sampleVersion (.ok cfgSample)
      [("foo.desktop", sampleOriginal)] (some ovAfterFirstRun) =
      .ok (ovAfterFirstRun, ["foo.desktop"]) :=
  claim_C1 compileAll runOverride sampleVersion cfgSample [("foo.desktop", sampleOriginal)]
    [] ovAfterFirstRun ["foo.desktop"] (by decide) (by decide)

/-- C1 counterexample: after a first run that wrote `foo.desktop`, the
second run's clean phase deletes that file (second conjunct), and the
second run again performs the write — its write list is `[foo.desktop]`,
not empty — so the writer's existing-target check did not suppress the
write as the claim states. -/
theorem claim_C1_counterexample :
    generateRun compileAll runOverride sampleVersion (.ok cfgSample)
      [("foo.desktop", sampleOriginal)] (some []) = .ok (ovAfterFirstRun, ["foo.desktop"])
    ∧ cleanSweep ovAfterFirstRun = .ok []
    ∧ generateRun compileAll runOverride sampleVersion (.ok cfgSample)
        [("foo.desktop", sampleOriginal)] (some ovAfterFirstRun) =
        .ok (ovAfterFirstRun, ["foo.desktop"]) := by
  decide

end XdgOverride
